import Mathlib

/-!
Shallow embedding of the interaction logic of `src/src/App.tsx`
(single-page marketing site): the scroll-spy active-section tracker
(`useActiveSection`), the per-card tilt/glow handlers (`TiltCard`),
the page-wide cursor glow clamp (`MouseGlow`), the typewriter headline
(`GradientTypeTitle`) and the contact form state machine (`ContactForm`).

JavaScript numbers are modelled as exact rationals (ℚ); the arithmetic the
claims mention is exact in both. JS strings are modelled by Lean `String`
(lengths counted in characters; all inputs of interest are ASCII, where the
two length notions agree).
-/

namespace App

/-- Models JavaScript `String.prototype.trim`: removes leading and trailing
whitespace characters. -/
def jsTrim (s : String) : String :=
  (((s.toList.dropWhile Char.isWhitespace).reverse.dropWhile
      Char.isWhitespace).reverse).asString

/-- Models JavaScript `full.slice(0, n)` (App.tsx line 402): the first `n`
characters of `s` (all of `s` when `n` exceeds its length). -/
def strSlice (s : String) (n : Nat) : String :=
  (s.toList.take n).asString

/-! ## Section Visibility Tracker (`useActiveSection`, App.tsx lines 34-58) -/

/-- One `IntersectionObserverEntry` as the callback at App.tsx lines 44-48
reads it: the observed element's id (`e.target.id`), its
`intersectionRatio` and its `isIntersecting` flag. -/
structure Sample where
  id : String
  ratio : ℚ
  intersecting : Bool
deriving DecidableEq

/-- Insert a sample into a list already sorted by descending ratio, keeping
earlier elements first on ties. -/
def insertDesc (e : Sample) : List Sample → List Sample
  | [] => [e]
  | f :: fs => if e.ratio < f.ratio then f :: insertDesc e fs else e :: f :: fs

/-- Models `entries.sort((a, b) => (b.intersectionRatio ?? 0) - (a.intersectionRatio ?? 0))`
(App.tsx line 47): ECMAScript `Array.prototype.sort` must produce a stable
sort permutation consistent with the comparator, here a stable sort by
descending `intersectionRatio`; a stable insertion sort realises exactly
that contract. -/
def sortDesc : List Sample → List Sample
  | [] => []
  | e :: es => insertDesc e (sortDesc es)

/-- Models App.tsx lines 45-47: filter the batch to intersecting entries,
sort by descending ratio and take the first (`[0]`, i.e. `head?`). -/
def selectVisible (entries : List Sample) : Option Sample :=
  (sortDesc (entries.filter (fun e => e.intersecting))).head?

/-- Models the observer callback's effect on the active-section state
(App.tsx line 48): `if (visible?.target?.id) setActive(visible.target.id)`.
The guard is JS truthiness, so the state is updated only when a winning
entry exists and its id is a non-empty string; otherwise the previous
state is kept. -/
def updateActive (entries : List Sample) (active : String) : String :=
  match selectVisible entries with
  | some v => if v.id = "" then active else v.id
  | none => active

/-- Models `useState(ids[0] ?? "")` (App.tsx line 35): the initial
active-section state. -/
def initialActive (ids : List String) : String :=
  ids.headD ""

/-- The reachable active-section states for a configured id list `ids`:
the initial state, and the result of any observer callback. The observer
only ever reports entries for elements it observes, which are resolved
from `ids` (App.tsx lines 37-39 and 53), so every batch entry's id is
drawn from `ids`. -/
inductive ActiveReachable (ids : List String) : String → Prop
  | init : ActiveReachable ids (initialActive ids)
  | update (s : String) (batch : List Sample)
      (hb : ∀ e ∈ batch, e.id ∈ ids) :
      ActiveReachable ids s → ActiveReachable ids (updateActive batch s)

/-! ## Card tilt (`TiltCard`, App.tsx lines 311-389) -/

/-- The tilt state `{ rx, ry, glowX, glowY }` of App.tsx line 324:
`rx`/`ry` are the rotateX/rotateY angles in degrees, `glowX`/`glowY` the
glow centre in percent. -/
structure Tilt where
  rx : ℚ
  ry : ℚ
  glowX : ℚ
  glowY : ℚ
deriving DecidableEq

/-- The initial tilt state `{ rx: 0, ry: 0, glowX: 50, glowY: 50 }`
(App.tsx line 324). -/
def tiltInit : Tilt := ⟨0, 0, 50, 50⟩

/-- Models the `onMove` pointer handler (App.tsx lines 330-338) as a
function of the normalized in-card pointer position
`px = (clientX - left) / width`, `py = (clientY - top) / height`:
`ry = (px - 0.5) * 10`, `rx = -(py - 0.5) * 10`, glow at
`(px * 100, py * 100)`. -/
def onMoveTilt (px py : ℚ) : Tilt :=
  ⟨(-(py - 1/2)) * 10, (px - 1/2) * 10, px * 100, py * 100⟩

/-- Models the `onLeave` pointer handler (App.tsx line 341):
`setTilt({ rx: 0, ry: 0, glowX: 50, glowY: 50 })`, ignoring the prior
state. -/
def onLeaveTilt (_t : Tilt) : Tilt :=
  ⟨0, 0, 50, 50⟩

/-- The reachable tilt states: the initial state, the state after a
pointer move whose normalized position lies within the card's bounds
(`px, py ∈ [0,1]`), and the state after a pointer leave. -/
inductive TiltReachable : Tilt → Prop
  | init : TiltReachable tiltInit
  | move (t : Tilt) (px py : ℚ) (hx0 : 0 ≤ px) (hx1 : px ≤ 1)
      (hy0 : 0 ≤ py) (hy1 : py ≤ 1) :
      TiltReachable t → TiltReachable (onMoveTilt px py)
  | leave (t : Tilt) : TiltReachable t → TiltReachable (onLeaveTilt t)

/-! ## Page-wide cursor glow (`MouseGlow`, App.tsx lines 126-161) -/

/-- Models the clamp in the background transform (App.tsx lines 135-136):
`Math.max(0, Math.min(100, v))`. -/
def clampPct (v : ℚ) : ℚ :=
  max 0 (min 100 v)

/-- The rendered radial-gradient centre (App.tsx lines 134-137) as a pair of
percentages, computed from the smoothed spring outputs `(lx, ly)`; the pair
is interpolated into the gradient's `at px% py%` position. -/
def glowCenter (lx ly : ℚ) : ℚ × ℚ :=
  (clampPct lx, clampPct ly)

/-! ## Typewriter (`GradientTypeTitle`, App.tsx lines 391-432) -/

/-- The typewriter's state: the tick counter `i`, the displayed `text`,
the `done` flag, and whether the interval timer is still registered. -/
structure TypeState where
  i : Nat
  text : String
  done : Bool
  timerOn : Bool
deriving DecidableEq

/-- Models the initial state of `GradientTypeTitle` for target string `s`
(App.tsx lines 394-398): with reduced motion the full string is shown at
once, `done` is true and no interval is registered (`if (reduced) return`);
otherwise the text starts empty with the interval running. -/
def typeInit (reduced : Bool) (s : String) : TypeState :=
  ⟨0, if reduced then s else "", reduced, !reduced⟩

/-- Models one interval tick (App.tsx lines 400-407): when the timer is
registered, `i` is incremented, the text becomes `full.slice(0, i)`, and
once `i >= full.length` the interval is cleared and `done` is set. -/
def typeTick (s : String) (st : TypeState) : TypeState :=
  if st.timerOn then
    let j := st.i + 1
    ⟨j, strSlice s j, st.done || decide (s.length ≤ j),
      !decide (s.length ≤ j)⟩
  else st

/-- The typewriter state after `k` ticks, starting with reduced motion
off. -/
def typeRun (s : String) : Nat → TypeState
  | 0 => typeInit false s
  | k + 1 => typeTick s (typeRun s k)

/-! ## Contact form (`ContactForm`, App.tsx lines 467-585) -/

/-- The submission status `"idle" | "sending" | "sent"` (App.tsx line 473). -/
inductive Status
  | idle
  | sending
  | sent
deriving DecidableEq

/-- The contact form's draft fields (App.tsx lines 468-472). -/
structure FormDraft where
  name : String
  email : String
  company : String
  goal : String
  message : String
deriving DecidableEq

/-- The whole contact-form state: the draft fields and the status. -/
structure FormState where
  draft : FormDraft
  status : Status
deriving DecidableEq

/-- A character allowed by the regex class `[^\s@]`: neither whitespace
nor `@`. -/
def emailOkChar (c : Char) : Bool :=
  !c.isWhitespace && c != '@'

/-- Whether a character list contains a `.` that has at least one character
after it (the split point `\.` of the regex, with a non-empty tail). -/
def dotSplitOk : List Char → Bool
  | [] => false
  | [_] => false
  | '.' :: _ :: _ => true
  | _ :: rest => dotSplitOk rest

/-- Split a character list at every `@`, the semantics of
`s.split("@")` / `s.splitOn "@"` for the single-character separator: the
pieces between occurrences of `@`, in order, empty pieces included. -/
def splitAtSign : List Char → List (List Char)
  | [] => [[]]
  | '@' :: rest => [] :: splitAtSign rest
  | c :: rest =>
    match splitAtSign rest with
    | [] => [[c]]
    | p :: ps => (c :: p) :: ps

/-- Models `/^[^\s@]+@[^\s@]+\.[^\s@]+$/.test s` (App.tsx line 476).
Every segment of the regex excludes `@`, so a match forces exactly one `@`
in the string, splitting it as `local@domain`; `local` must be non-empty
and `@`/whitespace-free, `domain` likewise, and `domain` must contain a
`.` with at least one character before it and one after it (the characters
around the chosen dot may themselves include further dots, matching the
regex's backtracking). -/
def emailRegexTest (s : String) : Bool :=
  match splitAtSign s.toList with
  | [localPart, domainPart] =>
    localPart != [] && localPart.all emailOkChar &&
    domainPart.all emailOkChar &&
    (match domainPart with
     | [] => false
     | _ :: t => dotSplitOk t)
  | _ => false

/-- Models the `canSend` memo (App.tsx lines 475-478): trimmed name of
length at least 2, trimmed email matching the basic address regex, trimmed
message of length at least 10, and status not `sending`. -/
def canSend (st : FormState) : Bool :=
  let okEmail := emailRegexTest (jsTrim st.draft.email)
  decide (2 ≤ (jsTrim st.draft.name).length) && okEmail &&
    decide (10 ≤ (jsTrim st.draft.message).length) &&
    decide (st.status ≠ Status.sending)

/-- The initial draft values (App.tsx lines 468-472, restored at lines
487-492): every text field empty and the goal select at its default
option. -/
def initialDraft : FormDraft :=
  ⟨"", "", "", "Crescer com performance", ""⟩

/-- Models `onSubmit` (App.tsx lines 480-493) as the sequence of observable
form states it passes through, the starting state included. When `canSend`
is false the handler returns at once (line 482) and the state never
changes; otherwise the status becomes `sending`, then (after the simulated
650ms latency) `sent`, then (after the 900ms confirmation delay) `idle`
while every draft field is cleared back to its initial value. -/
def submitStates (st : FormState) : List FormState :=
  if canSend st then
    [st, ⟨st.draft, Status.sending⟩, ⟨st.draft, Status.sent⟩,
      ⟨initialDraft, Status.idle⟩]
  else [st]

/-! ## Helper lemmas about the descending sort of `useActiveSection` -/

/-- Inserting a sample never yields the empty list. -/
theorem insertDesc_ne_nil (e : Sample) (l : List Sample) : insertDesc e l ≠ [] := by
  cases l with
  | nil => simp [insertDesc]
  | cons f fs =>
    rw [insertDesc]
    split <;> simp

/-- The stable descending sort is empty exactly on the empty list. -/
theorem sortDesc_eq_nil_iff (l : List Sample) : sortDesc l = [] ↔ l = [] := by
  cases l with
  | nil => simp [sortDesc]
  | cons e es =>
    rw [sortDesc]
    exact ⟨fun h => absurd h (insertDesc_ne_nil e (sortDesc es)), by simp⟩

/-- After inserting `e`, the head is either `e` itself (and then `e`
dominates the old head) or the old head (which then strictly dominates
`e`). -/
theorem insertDesc_head (e : Sample) (l : List Sample) :
    ((insertDesc e l).head? = some e ∧ ∀ f, l.head? = some f → f.ratio ≤ e.ratio) ∨
      ∃ f, l.head? = some f ∧ (insertDesc e l).head? = some f ∧ e.ratio < f.ratio := by
  cases l with
  | nil => exact Or.inl ⟨rfl, by simp⟩
  | cons f fs =>
    rw [insertDesc]
    by_cases h : e.ratio < f.ratio
    · exact Or.inr ⟨f, rfl, by rw [if_pos h]; simp, h⟩
    · refine Or.inl ⟨by rw [if_neg h]; simp, ?_⟩
      intro g hg
      obtain rfl : f = g := by simpa using hg
      exact le_of_not_lt h

/-- The head of the descending sort is an element of the list whose ratio
dominates every element's ratio. -/
theorem sortDesc_head_max : ∀ (l : List Sample) (x : Sample),
    (sortDesc l).head? = some x → x ∈ l ∧ ∀ f ∈ l, f.ratio ≤ x.ratio
  | [], x, hx => by simp [sortDesc] at hx
  | e :: es, x, hx => by
    rw [sortDesc] at hx
    rcases insertDesc_head e (sortDesc es) with ⟨h1, h2⟩ | ⟨m, hm, hh, hlt⟩
    · obtain rfl : x = e := by rw [h1] at hx; exact (Option.some_inj.mp hx).symm
      refine ⟨List.mem_cons_self _ _, ?_⟩
      intro f hf
      rcases List.mem_cons.mp hf with rfl | hf
      · exact le_refl _
      · have hne : es ≠ [] := List.ne_nil_of_mem hf
        have hsne : sortDesc es ≠ [] := fun h0 => hne ((sortDesc_eq_nil_iff es).mp h0)
        cases hs : sortDesc es with
        | nil => exact absurd hs hsne
        | cons a as =>
          have hm' : (sortDesc es).head? = some a := by simp [hs]
          obtain ⟨hmem, hmax⟩ := sortDesc_head_max es a hm'
          exact le_trans (hmax f hf) (h2 a hm')
    · obtain rfl : x = m := by rw [hh] at hx; exact (Option.some_inj.mp hx).symm
      obtain ⟨hmem, hmax⟩ := sortDesc_head_max es x hm
      refine ⟨List.mem_cons_of_mem _ hmem, ?_⟩
      intro f hf
      rcases List.mem_cons.mp hf with rfl | hf
      · exact le_of_lt hlt
      · exact hmax f hf

/-- When no entry of the batch is intersecting, no winner is selected. -/
theorem selectVisible_none (batch : List Sample)
    (h : ∀ e ∈ batch, e.intersecting = false) : selectVisible batch = none := by
  have hf : batch.filter (fun e => e.intersecting) = [] := by
    rw [List.filter_eq_nil_iff]
    intro a ha
    simp [h a ha]
  rw [selectVisible, hf]
  rfl

/-- When some entry of the batch is intersecting, the selected winner is an
intersecting entry of the batch of maximal intersection ratio among the
intersecting entries. -/
theorem selectVisible_some (batch : List Sample)
    (h : ∃ e ∈ batch, e.intersecting = true) :
    ∃ v, selectVisible batch = some v ∧ v ∈ batch ∧ v.intersecting = true ∧
      ∀ f ∈ batch, f.intersecting = true → f.ratio ≤ v.ratio := by
  obtain ⟨e, he, hei⟩ := h
  have hmemf : e ∈ batch.filter (fun x => x.intersecting) :=
    List.mem_filter.mpr ⟨he, hei⟩
  have hfne : batch.filter (fun x => x.intersecting) ≠ [] := List.ne_nil_of_mem hmemf
  have hsne : sortDesc (batch.filter (fun x => x.intersecting)) ≠ [] :=
    fun h0 => hfne ((sortDesc_eq_nil_iff _).mp h0)
  cases hs : sortDesc (batch.filter (fun x => x.intersecting)) with
  | nil => exact absurd hs hsne
  | cons v vs =>
    have hv : (sortDesc (batch.filter (fun x => x.intersecting))).head? = some v := by
      simp [hs]
    obtain ⟨hvmem, hvmax⟩ := sortDesc_head_max _ v hv
    obtain ⟨hvb, hvi⟩ := List.mem_filter.mp hvmem
    refine ⟨v, ?_, hvb, by simpa using hvi, ?_⟩
    · rw [selectVisible, hs]; simp
    · intro f hf hfi
      exact hvmax f (List.mem_filter.mpr ⟨hf, hfi⟩)

/-! ## Helper lemmas for the typewriter -/

/-- Before the target length is reached, the typewriter after `k` ticks
shows the first `k` characters, is not done, and keeps its timer. -/
theorem typeRun_lt (s : String) : ∀ k : Nat, k < s.length →
    typeRun s k = ⟨k, strSlice s k, false, true⟩
  | 0, _ => by
    simp [typeRun, typeInit, strSlice]
    exact String.asString_nil.symm
  | k + 1, hk => by
    have hk' : k < s.length := Nat.lt_of_succ_lt hk
    rw [typeRun, typeRun_lt s k hk']
    simp [typeTick, Nat.not_le.mpr hk]

/-- Taking as many characters as the string has gives the string back. -/
theorem strSlice_length (s : String) : strSlice s s.length = s := by
  have h : s.length = s.toList.length := rfl
  rw [strSlice, h, List.take_length, String.asString_toList]

/-- After exactly `length` ticks the typewriter shows the full string, is
done, and its interval is cleared. -/
theorem typeRun_final (s : String) (hs : 1 ≤ s.length) :
    typeRun s s.length = ⟨s.length, s, true, false⟩ := by
  obtain ⟨n, hn⟩ : ∃ n, s.length = n + 1 := ⟨s.length - 1, by omega⟩
  rw [hn, typeRun, typeRun_lt s n (by omega)]
  rw [typeTick]
  simp only [if_pos rfl]
  have hle : decide (s.length ≤ n + 1) = true := by simp [hn]
  rw [hle]
  simp [← hn, strSlice_length]

/-! ## The claims -/

/-- C1: on every observation batch of the section-visibility update
(`useActiveSection`), if no sample is intersecting the active-section
state is left unchanged; if at least one sample is intersecting, the state
becomes the id of an intersecting sample of maximal `intersectionRatio`
(the first of the descending sort); and on the batch
`[(id "a", ratio 0.5, intersecting), (id "b", ratio 0.7, intersecting)]`
the result is `"b"`. The hypothesis that the batch's ids are non-empty
reflects the environment: observer entries report elements resolved by
`document.getElementById`, which never resolves an element for the empty
id. -/
theorem active_section_update_spec (batch : List Sample) (active : String)
    (hid : ∀ e ∈ batch, e.id ≠ "") :
    ((∀ e ∈ batch, e.intersecting = false) → updateActive batch active = active) ∧
    ((∃ e ∈ batch, e.intersecting = true) →
      ∃ v ∈ batch, v.intersecting = true ∧
        (∀ f ∈ batch, f.intersecting = true → f.ratio ≤ v.ratio) ∧
        updateActive batch active = v.id) ∧
    updateActive [⟨"a", 1/2, true⟩, ⟨"b", 7/10, true⟩] active = "b" := by
  refine ⟨?_, ?_, ?_⟩
  · intro h
    rw [updateActive, selectVisible_none batch h]
  · intro h
    obtain ⟨v, hsel, hvb, hvi, hvmax⟩ := selectVisible_some batch h
    refine ⟨v, hvb, hvi, hvmax, ?_⟩
    rw [updateActive, hsel]
    simp [hid v hvb]
  · norm_num [updateActive, selectVisible, sortDesc, insertDesc]
    exact fun h => absurd h (by decide)

/-- C1, witness: the theorem applied to the concrete two-sample batch of
the claim, with prior state `"a"`: the higher-ratio sample `"b"` wins. -/
theorem active_section_update_spec_witness :
    (∀ e ∈ ([⟨"a", 1/2, true⟩, ⟨"b", 7/10, true⟩] : List Sample), e.id ≠ "") ∧
    updateActive [⟨"a", 1/2, true⟩, ⟨"b", 7/10, true⟩] "a" = "b" := by
  have h := active_section_update_spec [⟨"a", 1/2, true⟩, ⟨"b", 7/10, true⟩] "a"
    (by decide)
  exact ⟨by decide, h.2.2⟩

/-- C2: `canSend` holds exactly when the trimmed name has length at least
2, the trimmed email matches the basic `local@domain.tld` regex, the
trimmed message has length at least 10 and the status is not `sending`;
it is false whenever the name is `"A"` (for any other field values and
any status) and true for name `"Ana"`, email `"a@b.co"`, message
`"1234567890"` and status idle (for any company and goal). -/
theorem canSend_spec :
    (∀ st : FormState, canSend st = true ↔
      (2 ≤ (jsTrim st.draft.name).length ∧
        emailRegexTest (jsTrim st.draft.email) = true ∧
        10 ≤ (jsTrim st.draft.message).length ∧
        st.status ≠ Status.sending)) ∧
    (∀ (e c g m : String) (stat : Status),
      canSend ⟨⟨"A", e, c, g, m⟩, stat⟩ = false) ∧
    (∀ c g : String,
      canSend ⟨⟨"Ana", "a@b.co", c, g, "1234567890"⟩, Status.idle⟩ = true) := by
  refine ⟨fun st => ?_, fun e c g m stat => rfl, fun c g => rfl⟩
  simp [canSend, Bool.and_eq_true, decide_eq_true_eq, and_assoc]

/-- C3: for any form state that may be sent and is idle, the submission
passes through the statuses idle, sending, sent, idle in that order, and
its final state carries the initial draft: name, email, company and
message cleared to the empty string and the goal reset to its default
option `"Crescer com performance"`. -/
theorem submit_cycle_spec (st : FormState) (hsend : canSend st = true)
    (hidle : st.status = Status.idle) :
    (submitStates st).map FormState.status =
      [Status.idle, Status.sending, Status.sent, Status.idle] ∧
    (submitStates st).getLast? = some ⟨initialDraft, Status.idle⟩ ∧
    initialDraft.name = "" ∧ initialDraft.email = "" ∧
    initialDraft.company = "" ∧ initialDraft.message = "" ∧
    initialDraft.goal = "Crescer com performance" := by
  refine ⟨?_, ?_, rfl, rfl, rfl, rfl, rfl⟩ <;> simp [submitStates, hsend, hidle]

/-- C3, witness: the full submission cycle on the concrete valid draft
(name `"Ana"`, email `"a@b.co"`, message `"1234567890"`). -/
theorem submit_cycle_spec_witness :
    (submitStates ⟨⟨"Ana", "a@b.co", "", "Crescer com performance", "1234567890"⟩,
        Status.idle⟩).map FormState.status =
      [Status.idle, Status.sending, Status.sent, Status.idle] ∧
    (submitStates ⟨⟨"Ana", "a@b.co", "", "Crescer com performance", "1234567890"⟩,
        Status.idle⟩).getLast? = some ⟨initialDraft, Status.idle⟩ ∧
    initialDraft.name = "" ∧ initialDraft.email = "" ∧
    initialDraft.company = "" ∧ initialDraft.message = "" ∧
    initialDraft.goal = "Crescer com performance" :=
  submit_cycle_spec _ rfl rfl

/-- C4: the card-tilt move handler yields exactly
`rotateY = (px - 0.5) * 10`, `rotateX = -(py - 0.5) * 10` and glow
position `(px * 100, py * 100)`; at the exact centre `(0.5, 0.5)` both
angles are 0 and the glow is `(50, 50)`. -/
theorem tilt_move_spec (px py : ℚ) :
    (onMoveTilt px py).ry = (px - 1/2) * 10 ∧
    (onMoveTilt px py).rx = (-(py - 1/2)) * 10 ∧
    (onMoveTilt px py).glowX = px * 100 ∧
    (onMoveTilt px py).glowY = py * 100 ∧
    onMoveTilt (1/2) (1/2) = ⟨0, 0, 50, 50⟩ := by
  refine ⟨rfl, rfl, rfl, rfl, ?_⟩
  rw [onMoveTilt]
  norm_num

/-- C5: every reachable tilt state (initial, after any in-bounds pointer
move with `px, py ∈ [0,1]`, after pointer leave) has both rotation angles
in `[-5, 5]` and both glow percentages in `[0, 100]`. -/
theorem tilt_state_bounds (t : Tilt) (h : TiltReachable t) :
    -5 ≤ t.rx ∧ t.rx ≤ 5 ∧ -5 ≤ t.ry ∧ t.ry ≤ 5 ∧
    0 ≤ t.glowX ∧ t.glowX ≤ 100 ∧ 0 ≤ t.glowY ∧ t.glowY ≤ 100 := by
  induction h with
  | init => norm_num [tiltInit]
  | move t px py hx0 hx1 hy0 hy1 _ _ =>
    refine ⟨?_, ?_, ?_, ?_, ?_, ?_, ?_, ?_⟩ <;> simp [onMoveTilt] <;> linarith
  | leave t _ _ => norm_num [onLeaveTilt]

/-- C5, witness: the bounds at the concrete reachable state produced by a
pointer move to the in-bounds position `(0.25, 0.75)`. -/
theorem tilt_state_bounds_witness :
    -5 ≤ (onMoveTilt (1/4) (3/4)).rx ∧ (onMoveTilt (1/4) (3/4)).rx ≤ 5 ∧
    -5 ≤ (onMoveTilt (1/4) (3/4)).ry ∧ (onMoveTilt (1/4) (3/4)).ry ≤ 5 ∧
    0 ≤ (onMoveTilt (1/4) (3/4)).glowX ∧ (onMoveTilt (1/4) (3/4)).glowX ≤ 100 ∧
    0 ≤ (onMoveTilt (1/4) (3/4)).glowY ∧ (onMoveTilt (1/4) (3/4)).glowY ≤ 100 :=
  tilt_state_bounds _
    (TiltReachable.move tiltInit (1/4) (3/4) (by norm_num) (by norm_num)
      (by norm_num) (by norm_num) TiltReachable.init)

/-- C6: with reduced motion off, after `k` ticks (`1 ≤ k ≤ length`) the
typewriter shows the length-`k` prefix of the target `s` (its text
followed by the remaining characters is `s`, and its length is `k`);
after exactly `length` ticks the text equals `s`, the interval is
cancelled and done is true; with reduced motion on, the full string is
shown immediately with done true and no interval; and for `"abc"`: one
tick shows `"a"`, three ticks show `"abc"` with done true. -/
theorem typewriter_spec (s : String) (k : Nat) (h1 : 1 ≤ k) (h2 : k ≤ s.length) :
    ((typeRun s k).text = strSlice s k ∧
      (typeRun s k).text.toList ++ s.toList.drop k = s.toList ∧
      (typeRun s k).text.length = k) ∧
    ((typeRun s s.length).text = s ∧ (typeRun s s.length).done = true ∧
      (typeRun s s.length).timerOn = false) ∧
    ((typeInit true s).text = s ∧ (typeInit true s).done = true ∧
      (typeInit true s).timerOn = false) ∧
    (typeRun "abc" 1).text = "a" ∧
    (typeRun "abc" 3).text = "abc" ∧ (typeRun "abc" 3).done = true := by
  have hlen : s.length = s.toList.length := rfl
  have hs1 : 1 ≤ s.length := le_trans h1 h2
  have hfin := typeRun_final s hs1
  have htext : (typeRun s k).text = strSlice s k := by
    rcases lt_or_eq_of_le h2 with hlt | heq
    · rw [typeRun_lt s k hlt]
    · rw [heq, hfin, strSlice_length]
  refine ⟨⟨htext, ?_, ?_⟩, ⟨by rw [hfin], by rw [hfin], by rw [hfin]⟩,
    ⟨rfl, rfl, rfl⟩, rfl, rfl, rfl⟩
  · rw [htext, strSlice, List.toList_asString, List.take_append_drop]
  · rw [htext, strSlice, List.length_asString, List.length_take]
    omega

/-- C6, witness: the theorem applied at target `"abc"` and `k = 3`. -/
theorem typewriter_spec_witness :
    ((typeRun "abc" 3).text = strSlice "abc" 3 ∧
      (typeRun "abc" 3).text.toList ++ ("abc" : String).toList.drop 3 =
        ("abc" : String).toList ∧
      (typeRun "abc" 3).text.length = 3) ∧
    ((typeRun "abc" ("abc" : String).length).text = "abc" ∧
      (typeRun "abc" ("abc" : String).length).done = true ∧
      (typeRun "abc" ("abc" : String).length).timerOn = false) ∧
    ((typeInit true "abc").text = "abc" ∧ (typeInit true "abc").done = true ∧
      (typeInit true "abc").timerOn = false) ∧
    (typeRun "abc" 1).text = "a" ∧
    (typeRun "abc" 3).text = "abc" ∧ (typeRun "abc" 3).done = true :=
  typewriter_spec "abc" 3 (by norm_num) (by decide)

/-- C7: the pointer-leave handler resets any prior tilt state to the
neutral value `(0, 0, 50, 50)`, which is also the initial state. -/
theorem tilt_leave_reset (t : Tilt) :
    onLeaveTilt t = ⟨0, 0, 50, 50⟩ ∧ onLeaveTilt t = tiltInit :=
  ⟨rfl, rfl⟩

/-- C8, counterexample: the claim "whenever the configured section id list
is non-empty, the Active Section State ... is never the empty string"
fails at the concrete configuration `[""]`: the list is non-empty, yet
the (initial, hence reachable) Active Section State is the empty
string. -/
theorem active_empty_config_counterexample :
    ([""] : List String) ≠ [] ∧ ActiveReachable [""] "" :=
  ⟨by decide, ActiveReachable.init⟩

/-- C8, amended: whenever the configured section id list is non-empty,
every reachable Active Section State is one of the configured ids (so
every update only ever assigns an id drawn from the list), the state is
initialized to the first configured id, and — provided every configured
id is a non-empty string — the state is never the empty string. -/
theorem active_membership_amended (ids : List String) (s : String)
    (hne : ids ≠ []) (h : ActiveReachable ids s) :
    s ∈ ids ∧ ids.head? = some (initialActive ids) ∧
    ((∀ i ∈ ids, i ≠ "") → s ≠ "") := by
  have hmem : s ∈ ids := by
    induction h with
    | init =>
      cases ids with
      | nil => exact absurd rfl hne
      | cons a t => simp [initialActive]
    | update s batch hb hs ih =>
      rw [updateActive]
      cases hsel : selectVisible batch with
      | none => exact ih
      | some v =>
        by_cases hv : v.id = ""
        · simpa [hv] using ih
        · have hvb : v ∈ batch := by
            obtain ⟨hvmem, _⟩ := sortDesc_head_max _ v hsel
            exact List.mem_of_mem_filter hvmem
          simpa [hv] using hb v hvb
  refine ⟨hmem, ?_, fun hall => hall s hmem⟩
  cases ids with
  | nil => exact absurd rfl hne
  | cons a t => simp [initialActive]

/-- C8, witness: the amended theorem applied to the concrete configuration
`["home", "services"]` and its reachable initial state `"home"`. -/
theorem active_membership_amended_witness :
    "home" ∈ (["home", "services"] : List String) ∧
    (["home", "services"] : List String).head? =
      some (initialActive ["home", "services"]) ∧
    "home" ≠ "" := by
  have h := active_membership_amended ["home", "services"] "home" (by decide)
    ActiveReachable.init
  exact ⟨h.1, h.2.1, h.2.2 (by decide)⟩

/-- C9: when `canSend` is false the submit handler is a no-op: the only
state the submission passes through is the original one, so the status
and every draft field are unchanged. -/
theorem submit_noop_of_invalid (st : FormState) (h : canSend st = false) :
    submitStates st = [st] := by
  simp [submitStates, h]

/-- C9, witness: the no-op at the concrete invalid draft with name `"A"`
(too short), all other fields valid. -/
theorem submit_noop_of_invalid_witness :
    submitStates ⟨⟨"A", "a@b.co", "", "Crescer com performance", "1234567890"⟩,
        Status.idle⟩ =
      [⟨⟨"A", "a@b.co", "", "Crescer com performance", "1234567890"⟩, Status.idle⟩] :=
  submit_noop_of_invalid _ rfl

/-- C10: for every smoothed spring output `(lx, ly)` — including values
overshooting past the raw pointer percentages — the rendered
radial-gradient centre is `(min (max lx 0) 100, min (max ly 0) 100)`, so
both rendered percentages always lie in `[0, 100]`. -/
theorem glow_center_clamped (lx ly : ℚ) :
    glowCenter lx ly = (min (max lx 0) 100, min (max ly 0) 100) ∧
    0 ≤ (glowCenter lx ly).1 ∧ (glowCenter lx ly).1 ≤ 100 ∧
    0 ≤ (glowCenter lx ly).2 ∧ (glowCenter lx ly).2 ≤ 100 := by
  have key : ∀ v : ℚ, clampPct v = min (max v 0) 100 := by
    intro v
    simp only [clampPct, max_def, min_def]
    split_ifs <;> first | rfl | linarith
  have lo : ∀ v : ℚ, 0 ≤ clampPct v := fun v => le_max_left _ _
  have hi : ∀ v : ℚ, clampPct v ≤ 100 :=
    fun v => max_le (by norm_num) (min_le_left _ _)
  exact ⟨by rw [glowCenter, key, key], lo lx, hi lx, lo ly, hi ly⟩

end App
